import Mathlib

/-!
Verification development for the BlenderTools `send2ue` addon.

Strings mutated character-by-character in the Python source are modelled as
`List Char`; Python dictionaries are modelled as association lists with
`List.lookup` semantics (later writes shadow earlier entries); `raise` is
modelled by `Except.error`; Blender/Unreal side effects are modelled as
explicit effect traces.
-/

namespace BlenderTools

/-! ## Filename sanitisation (`core/texture_constants.py`, `core/metadata/__init__.py`) -/

/-- `INVALID_FILENAME_CHARS` from `core/texture_constants.py`:
the characters of the Python string literal `"!@#$%^&*()=[]\\:;\"\'<,>./? "`.
The backslash, double quote and apostrophe are written via `Char.ofNat`
(code points 92, 34 and 39). -/
def INVALID_FILENAME_CHARS : List Char :=
  ['!', '@', '#', '$', '%', '^', '&', '*', '(', ')', '=', '[', ']',
   Char.ofNat 92, ':', ';', Char.ofNat 34, Char.ofNat 39, '<', ',', '>', '.', '/', '?', ' ']

/-- Python `name.replace(c, "_")` for a single character `c`. -/
def replaceChar (s : List Char) (c : Char) : List Char :=
  s.map (fun x => if x = c then '_' else x)

/-- `unreal_material_name` from `core/metadata/__init__.py` (and identically in
`send2ue/core/metadata.py`): replaces each invalid filename character with an
underscore, iterating over `INVALID_FILENAME_CHARS` left to right. -/
def unreal_material_name (s : List Char) : List Char :=
  INVALID_FILENAME_CHARS.foldl replaceChar s

/-- The `while "." in material.name` loop body of `fix_material_name`,
given explicit fuel: iterates `s := unreal_material_name s` while a dot remains,
`none` when the fuel runs out with the guard still true. -/
def fixLoop : Nat → List Char → Option (List Char)
  | 0, s => if '.' ∈ s then none else some s
  | Nat.succ n, s => if '.' ∈ s then fixLoop n (unreal_material_name s) else some s

/-- `fix_material_name` from `core/metadata/__init__.py`: the initial
assignment `material.name = unreal_material_name(material.name)` followed by
the duplicate-suffix while-loop, with explicit fuel for the loop. -/
def fix_material_name (fuel : Nat) (s : List Char) : Option (List Char) :=
  fixLoop fuel (unreal_material_name s)

theorem replaceChar_not_mem (s : List Char) (c : Char) (hc : c ≠ '_') :
    c ∉ replaceChar s c := by
  intro h
  simp only [replaceChar, List.mem_map] at h
  rcases h with ⟨x, _, hx⟩
  by_cases hxc : x = c
  · rw [if_pos hxc] at hx
    exact hc hx.symm
  · rw [if_neg hxc] at hx
    exact hxc hx

theorem replaceChar_not_mem_of_not_mem (s : List Char) (c d : Char) (hc : c ≠ '_')
    (h : c ∉ s) : c ∉ replaceChar s d := by
  intro hmem
  simp only [replaceChar, List.mem_map] at hmem
  rcases hmem with ⟨x, hxs, hx⟩
  by_cases hxd : x = d
  · rw [if_pos hxd] at hx
    exact hc hx.symm
  · rw [if_neg hxd] at hx
    exact h (hx ▸ hxs)

theorem replaceChar_of_not_mem (s : List Char) (c : Char) (h : c ∉ s) :
    replaceChar s c = s := by
  have hcong : ∀ x ∈ s, (if x = c then '_' else x) = x := by
    intro x hx
    rw [if_neg]
    intro hxc
    exact h (hxc ▸ hx)
  calc replaceChar s c = s.map id := List.map_congr_left hcong
    _ = s := List.map_id s

theorem foldl_replaceChar_preserves (L : List Char) (s : List Char) (c : Char)
    (hc : c ≠ '_') (h : c ∉ s) : c ∉ L.foldl replaceChar s := by
  induction L generalizing s with
  | nil => exact h
  | cons d t ih =>
      simp only [List.foldl_cons]
      exact ih (replaceChar s d) (replaceChar_not_mem_of_not_mem s c d hc h)

theorem foldl_replaceChar_not_mem (L : List Char) (s : List Char) (c : Char)
    (hc : c ≠ '_') (h : c ∈ L) : c ∉ L.foldl replaceChar s := by
  induction L generalizing s with
  | nil => cases h
  | cons d t ih =>
      simp only [List.foldl_cons]
      rcases List.mem_cons.mp h with hcd | hct
      · subst hcd
        exact foldl_replaceChar_preserves t (replaceChar s c) c hc
          (replaceChar_not_mem s c hc)
      · exact ih (replaceChar s d) hct

theorem foldl_replaceChar_id (L : List Char) (s : List Char)
    (h : ∀ c ∈ L, c ∉ s) : L.foldl replaceChar s = s := by
  induction L with
  | nil => rfl
  | cons d t ih =>
      simp only [List.foldl_cons]
      rw [replaceChar_of_not_mem s d (h d (List.mem_cons_self d t))]
      exact ih (fun c hc => h c (List.mem_cons_of_mem d hc))

theorem invalid_ne_underscore : ∀ c ∈ INVALID_FILENAME_CHARS, c ≠ '_' := by decide

theorem dot_invalid : '.' ∈ INVALID_FILENAME_CHARS := by decide

theorem unreal_material_name_no_invalid (s : List Char) :
    ∀ c ∈ INVALID_FILENAME_CHARS, c ∉ unreal_material_name s :=
  fun c hc => foldl_replaceChar_not_mem INVALID_FILENAME_CHARS s c
    (invalid_ne_underscore c hc) hc

theorem unreal_material_name_idem_aux (s : List Char) :
    unreal_material_name (unreal_material_name s) = unreal_material_name s :=
  foldl_replaceChar_id INVALID_FILENAME_CHARS (unreal_material_name s)
    (fun c hc => unreal_material_name_no_invalid s c hc)

theorem fixLoop_zero_iterations (fuel : Nat) (s : List Char) :
    fixLoop fuel (unreal_material_name s) = some (unreal_material_name s) := by
  have hdot : '.' ∉ unreal_material_name s :=
    unreal_material_name_no_invalid s '.' dot_invalid
  cases fuel with
  | zero => simp [fixLoop, hdot]
  | succ n => simp [fixLoop, hdot]

/-- C9: the result of `unreal_material_name` contains no character of
`INVALID_FILENAME_CHARS`; the function is idempotent; and consequently the
duplicate-suffix while-loop in `fix_material_name` executes zero iterations
(its guard is false immediately after the initial assignment) and
`fix_material_name` terminates, for every input and any fuel. -/
theorem unreal_material_name_clean_idem_loop :
    ∀ s : List Char,
      (∀ c ∈ INVALID_FILENAME_CHARS, c ∉ unreal_material_name s) ∧
      unreal_material_name (unreal_material_name s) = unreal_material_name s ∧
      ∀ fuel : Nat, fix_material_name fuel s = some (unreal_material_name s) := by
  intro s
  refine ⟨unreal_material_name_no_invalid s, unreal_material_name_idem_aux s, ?_⟩
  intro fuel
  unfold fix_material_name
  exact fixLoop_zero_iterations fuel s

/-- Witness for C9 at the concrete name `"a.b"` with fuel 1. -/
theorem unreal_material_name_clean_idem_loop_witness :
    ('.' ∉ unreal_material_name ['a', '.', 'b']) ∧
    fix_material_name 1 ['a', '.', 'b'] = some (unreal_material_name ['a', '.', 'b']) :=
  ⟨(unreal_material_name_clean_idem_loop ['a', '.', 'b']).1 '.' (by decide),
   (unreal_material_name_clean_idem_loop ['a', '.', 'b']).2.2 1⟩

/-! ## Metadata creation (`core/metadata/mesh.py`, `core/metadata/armature.py`) -/

/-- The `MeshMetadata` dataclass from `core/metadata/mesh.py`. -/
structure MeshMetadata where
  category : String
deriving Repr, DecidableEq

/-- `MeshMetadata.create_mesh_metadata` from `core/metadata/mesh.py`.
The input is the mesh object's `send2ue_mesh.category` property;
`raise Exception(...)` is modelled by `Except.error`. -/
def MeshMetadata.create_mesh_metadata (category : String) : Except String MeshMetadata :=
  if category = "None" then Except.ok ⟨"None"⟩
  else if category = "Observable" then Except.ok ⟨"Observable"⟩
  else Except.error s!"Invalid mesh category: {category}"

/-- A bone as read by `create_armature_metadata`: its name and its
`send2ue_bone.is_observable_section` flag. -/
structure Bone where
  name : String
  is_observable_section : Bool
deriving Repr, DecidableEq

/-- The `ArmatureMetadata` dataclass from `core/metadata/armature.py`. -/
structure ArmatureMetadata where
  category : String
  observable_sections : List String
deriving Repr, DecidableEq

/-- `ArmatureMetadata.create_armature_metadata` from `core/metadata/armature.py`.
The inputs are the armature's `send2ue_armature.category` property and its bone
list; the `for bone in armature.bones` loop appending flagged bone names is the
filter-then-map below. `raise Exception(...)` is modelled by `Except.error`. -/
def ArmatureMetadata.create_armature_metadata (category : String) (bones : List Bone) :
    Except String ArmatureMetadata :=
  if category = "None" then Except.ok ⟨"None", []⟩
  else if category = "Observable" then
    Except.ok ⟨"Observable", (bones.filter (fun b => b.is_observable_section)).map Bone.name⟩
  else Except.error s!"Invalid armature category: {category}"

/-- C5: `create_mesh_metadata` raises exactly when the category property is
neither `"None"` nor `"Observable"`, and otherwise returns a `MeshMetadata`
whose category equals the property; `create_armature_metadata` raises under
the same condition. -/
theorem metadata_creation_raises_iff_invalid_category :
    ∀ (category : String) (bones : List Bone),
      ((∃ e, MeshMetadata.create_mesh_metadata category = Except.error e) ↔
        (category ≠ "None" ∧ category ≠ "Observable")) ∧
      (∀ m, MeshMetadata.create_mesh_metadata category = Except.ok m →
        m.category = category) ∧
      ((∃ e, ArmatureMetadata.create_armature_metadata category bones = Except.error e) ↔
        (category ≠ "None" ∧ category ≠ "Observable")) := by
  intro category bones
  by_cases h1 : category = "None"
  · subst h1
    refine ⟨?_, ?_, ?_⟩
    · simp [MeshMetadata.create_mesh_metadata]
    · intro m hm
      have hred : MeshMetadata.create_mesh_metadata "None" = Except.ok ⟨"None"⟩ := rfl
      rw [hred] at hm
      injection hm with h
      rw [← h]
    · simp [ArmatureMetadata.create_armature_metadata]
  · by_cases h2 : category = "Observable"
    · subst h2
      refine ⟨?_, ?_, ?_⟩
      · simp [MeshMetadata.create_mesh_metadata]
      · intro m hm
        have hred : MeshMetadata.create_mesh_metadata "Observable" =
            Except.ok ⟨"Observable"⟩ := rfl
        rw [hred] at hm
        injection hm with h
        rw [← h]
      · simp [ArmatureMetadata.create_armature_metadata]
    · refine ⟨?_, ?_, ?_⟩
      · simp [MeshMetadata.create_mesh_metadata, h1, h2]
      · intro m hm
        simp [MeshMetadata.create_mesh_metadata, h1, h2] at hm
      · simp [ArmatureMetadata.create_armature_metadata, h1, h2]

/-- Witness for C5: the category `"None"` succeeds with category `"None"`,
and the invalid category `"Broken"` raises, both concretely. -/
theorem metadata_creation_raises_iff_invalid_category_witness :
    (∃ m, MeshMetadata.create_mesh_metadata "None" = Except.ok m ∧ m.category = "None") ∧
    (∃ e, MeshMetadata.create_mesh_metadata "Broken" = Except.error e) :=
  ⟨⟨⟨"None"⟩, rfl,
    (metadata_creation_raises_iff_invalid_category "None" []).2.1 ⟨"None"⟩ rfl⟩,
   (metadata_creation_raises_iff_invalid_category "Broken" []).1.2 (by decide)⟩

/-! ## The Send2Ue operator's modal state machine (`send2ue/operators.py`)

The execution queue holds 6-tuples `(function, args, kwargs, message, asset_id,
attribute)`; a `Job` mirrors one tuple, with `fn` standing for the callable
together with its arguments. `Send2Ue.modal` is modelled as a step function on
an explicit operator state; the UI-only calls (`tag_redraw`,
`refresh_all_areas`, `progress_end`) have no modelled effect, and the
`message.format(attribute=...)` interpolation, which reads external asset data,
is abstracted to the raw message string. -/

/-- One entry of the execution queue. -/
structure Job where
  fn : String
  message : String
  asset_id : String
  attr : String
deriving Repr, DecidableEq

/-- The events `Send2Ue.modal` distinguishes: `'TIMER'`, `'ESC'`, anything else. -/
inductive BEvent where
  | timer
  | esc
  | other
deriving Repr, DecidableEq

/-- The return value of `Send2Ue.modal`. -/
inductive ModalResult where
  | runningModal
  | finished
deriving Repr, DecidableEq

/-- The mutable state of a `Send2Ue` operator instance, plus the window-manager
progress/status fields it writes.  `postOpDone` records that `post_operation`
ran; `timerActive` that the event timer is registered. -/
structure ModalState where
  queue : List Job
  escape : Bool
  done : Bool
  progress : ℚ
  maxStep : Nat
  statusText : Option String
  timerActive : Bool
  postOpDone : Bool
deriving Repr, DecidableEq

/-- The outcome of one `modal` call: the updated state, the job that was
dequeued and run during this call (if any), and the returned value. -/
structure ModalOutput where
  state : ModalState
  ran : Option Job
  result : ModalResult
deriving Repr, DecidableEq

/-- `progress = abs(((step / max_step) * 100) - 1)` with
`step = max_step - qsize()` evaluated after the `get`; Python float division is
modelled over `ℚ`, and the Python int subtraction over `ℤ`. -/
def jobProgress (maxStep qsize : Nat) : ℚ :=
  |((((maxStep : ℤ) - (qsize : ℤ)) : ℚ) / (maxStep : ℚ)) * 100 - 1|

/-- The tail of the `'TIMER'` branch of `Send2Ue.modal`, lines 60-72: the
`if self.escape` cleanup/return and the `if self.done` finish announcement,
applied to the state `s` as updated earlier in the call. -/
def modalFinish (s : ModalState) (ran : Option Job) : ModalOutput :=
  if s.escape then
    ⟨{ s with timerActive := false, statusText := none, postOpDone := true },
     ran, ModalResult.finished⟩
  else if s.done then
    ⟨{ s with progress := 100, statusText := some "Finished!", escape := true },
     ran, ModalResult.runningModal⟩
  else ⟨s, ran, ModalResult.runningModal⟩

/-- `Send2Ue.modal` (lines 33-73) as a step function.  In order: `done` is set
when the queue is empty; an `'ESC'` event sets `escape` and clears the queue;
a `'TIMER'` event dequeues and runs at most one job, updates progress and the
status text, then runs the escape/done checks; every other path returns
`'RUNNING_MODAL'`. -/
def modalStep (s : ModalState) (e : BEvent) : ModalOutput :=
  let done1 := s.done || s.queue.isEmpty
  match e with
  | BEvent.esc =>
      ⟨{ s with queue := [], escape := true, done := done1 }, none,
       ModalResult.runningModal⟩
  | BEvent.timer =>
      match s.queue with
      | j :: rest =>
          modalFinish
            { s with queue := rest, done := done1,
                     progress := jobProgress s.maxStep rest.length,
                     statusText := some j.message }
            (some j)
      | [] => modalFinish { s with done := done1 } none
  | BEvent.other =>
      ⟨{ s with done := done1 }, none, ModalResult.runningModal⟩

/-- The operator state right after `Send2Ue.invoke` (lines 75-93): the queue
holds the jobs enqueued by `export.send2ue`, progress is 0, the status text is
`'Validating...'`, `max_step` is the queue size, and the timer is registered. -/
def initModalState (q : List Job) : ModalState :=
  { queue := q, escape := false, done := false, progress := 0, maxStep := q.length,
    statusText := some "Validating...", timerActive := true, postOpDone := false }

/-- The jobs run, in order, when the modal handler receives the events `evs`;
the run stops as soon as a call returns `'FINISHED'`. -/
def modalTrace (s : ModalState) : List BEvent → List Job
  | [] => []
  | e :: es =>
      match (modalStep s e).result with
      | ModalResult.finished => (modalStep s e).ran.toList
      | ModalResult.runningModal =>
          (modalStep s e).ran.toList ++ modalTrace (modalStep s e).state es

/-- As `modalTrace`, also recording whether some call returned `'FINISHED'`. -/
def modalRunFin (s : ModalState) : List BEvent → List Job × Bool
  | [] => ([], false)
  | e :: es =>
      match (modalStep s e).result with
      | ModalResult.finished => ((modalStep s e).ran.toList, true)
      | ModalResult.runningModal =>
          ((modalStep s e).ran.toList ++ (modalRunFin (modalStep s e).state es).1,
           (modalRunFin (modalStep s e).state es).2)

/-- `Send2Ue.execute` (lines 101-115): `while not empty: get; run` processes the
queued jobs directly, in dequeue order. -/
def executeLoop : List Job → List Job
  | [] => []
  | j :: rest => j :: executeLoop rest

/-- States reachable in a modal run: `escape` or `done` is only ever set with
an empty queue (ESC clears the queue; `done` is set when the queue is empty and
the queue never grows). -/
def ModalInv (s : ModalState) : Prop :=
  (s.escape = true → s.queue = []) ∧ (s.done = true → s.queue = [])

theorem modalInv_init (q : List Job) : ModalInv (initModalState q) := by
  constructor <;> intro h <;> simp [initModalState] at h

theorem modalInv_step (s : ModalState) (e : BEvent) (h : ModalInv s) :
    ModalInv (modalStep s e).state := by
  rcases h with ⟨hesc, hdone⟩
  cases e with
  | esc => constructor <;> intro _ <;> rfl
  | other =>
      constructor
      · intro h
        exact hesc h
      · intro h
        simp only [modalStep] at h ⊢
        rcases Bool.or_eq_true_iff.mp h with h | h
        · exact hdone h
        · exact List.isEmpty_iff.mp h
  | timer =>
      cases hq : s.queue with
      | nil =>
          simp only [modalStep, hq, modalFinish]
          by_cases he : s.escape
          · simp only [he, hq, if_true]
            exact ⟨fun _ => rfl, fun _ => rfl⟩
          · simp only [Bool.not_eq_true] at he
            simp only [he, hq, Bool.false_eq_true, if_false, List.isEmpty_nil,
              Bool.or_true, if_true]
            exact ⟨fun _ => rfl, fun _ => rfl⟩
      | cons j rest =>
          have he : s.escape = false := by
            by_cases he : s.escape
            · rw [hesc he] at hq
              cases hq
            · simpa using he
          have hd : s.done = false := by
            by_cases hd : s.done
            · rw [hdone hd] at hq
              cases hq
            · simpa using hd
          simp only [modalStep, hq, modalFinish, hd, he, List.isEmpty_cons,
            Bool.or_false]
          constructor <;> intro h <;> simp at h

theorem modalFinish_queue (s : ModalState) (ran : Option Job) :
    (modalFinish s ran).state.queue = s.queue := by
  unfold modalFinish
  by_cases he : s.escape
  · simp [he]
  · by_cases hd : s.done <;> simp [he, hd]

theorem modalFinish_ran (s : ModalState) (ran : Option Job) :
    (modalFinish s ran).ran = ran := by
  unfold modalFinish
  by_cases he : s.escape
  · simp [he]
  · by_cases hd : s.done <;> simp [he, hd]

/-- Each `modal` call either conserves the queue (the job it ran, if any, was
its head) or is the `'ESC'` branch, which runs no job and clears the queue. -/
theorem modalStep_queue (s : ModalState) (e : BEvent) :
    (modalStep s e).ran.toList ++ (modalStep s e).state.queue = s.queue ∨
    ((modalStep s e).ran = none ∧ (modalStep s e).state.queue = []) := by
  cases e with
  | esc => exact Or.inr ⟨rfl, rfl⟩
  | other => exact Or.inl rfl
  | timer =>
      cases hq : s.queue with
      | nil =>
          left
          simp only [modalStep, hq, modalFinish_queue, modalFinish_ran,
            Option.toList_none, List.nil_append]
      | cons j rest =>
          left
          simp only [modalStep, hq, modalFinish_queue, modalFinish_ran,
            Option.toList_some, List.cons_append, List.nil_append]

theorem modalTrace_isPre (evs : List BEvent) :
    ∀ s : ModalState, ∃ r, modalTrace s evs ++ r = s.queue := by
  induction evs with
  | nil => exact fun s => ⟨s.queue, rfl⟩
  | cons e es ih =>
      intro s
      rcases ih (modalStep s e).state with ⟨r2, hr2⟩
      unfold modalTrace
      rcases modalStep_queue s e with hkeep | ⟨hran, hqnil⟩
      · cases hres : (modalStep s e).result with
        | finished => exact ⟨(modalStep s e).state.queue, by simpa [hres] using hkeep⟩
        | runningModal =>
            refine ⟨r2, ?_⟩
            simp only [hres]
            rw [List.append_assoc, hr2]
            exact hkeep
      · have htr : modalTrace (modalStep s e).state es = [] := by
          rw [hqnil] at hr2
          cases hmt : modalTrace (modalStep s e).state es with
          | nil => rfl
          | cons a t =>
              rw [hmt] at hr2
              cases hr2
        cases hres : (modalStep s e).result with
        | finished => exact ⟨s.queue, by simp [hres, hran]⟩
        | runningModal => exact ⟨s.queue, by simp [hres, hran, htr]⟩

/-- A state with an empty queue never runs another job. -/
theorem modalTrace_of_empty (evs : List BEvent) (s : ModalState)
    (h : s.queue = []) : modalTrace s evs = [] := by
  rcases modalTrace_isPre evs s with ⟨r, hr⟩
  rw [h] at hr
  cases hmt : modalTrace s evs with
  | nil => rfl
  | cons a t =>
      rw [hmt] at hr
      cases hr

theorem executeLoop_id (q : List Job) : executeLoop q = q := by
  induction q with
  | nil => rfl
  | cons j rest ih => simp [executeLoop, ih]

/-- C1: the queue is FIFO on both paths.  In a modal run from the state that
`invoke` sets up, the sequence of executed jobs is a prefix of the enqueued
queue (so any job enqueued earlier runs earlier, and each dequeued job runs
exactly once); in the direct `execute` path the processing loop runs exactly
the queued jobs in queue order. -/
theorem send2ue_queue_fifo :
    ∀ (q : List Job) (evs : List BEvent),
      (∃ r, modalTrace (initModalState q) evs ++ r = q) ∧ executeLoop q = q := by
  intro q evs
  refine ⟨?_, executeLoop_id q⟩
  rcases modalTrace_isPre evs (initModalState q) with ⟨r, hr⟩
  exact ⟨r, hr⟩

theorem modalFinish_result_run (s : ModalState) (ran : Option Job)
    (he : s.escape = false) (hd : s.done = false) :
    (modalFinish s ran).result = ModalResult.runningModal := by
  simp [modalFinish, he, hd]

theorem modalStep_queue_keep (s : ModalState) (e : BEvent) (he : e ≠ BEvent.esc) :
    (modalStep s e).ran.toList ++ (modalStep s e).state.queue = s.queue := by
  cases e with
  | esc => exact absurd rfl he
  | other => rfl
  | timer =>
      cases hq : s.queue with
      | nil =>
          simp only [modalStep, hq, modalFinish_queue, modalFinish_ran,
            Option.toList_none, List.nil_append]
      | cons j rest =>
          simp only [modalStep, hq, modalFinish_queue, modalFinish_ran,
            Option.toList_some, List.cons_append, List.nil_append]

theorem modalStep_nonempty_flags (s : ModalState) (hInv : ModalInv s)
    (j : Job) (rest : List Job) (hq : s.queue = j :: rest) :
    s.escape = false ∧ s.done = false := by
  rcases hInv with ⟨hesc, hdone⟩
  constructor
  · by_cases he : s.escape
    · rw [hesc he] at hq
      cases hq
    · simpa using he
  · by_cases hd : s.done
    · rw [hdone hd] at hq
      cases hq
    · simpa using hd

/-- On a `'TIMER'` event with a nonempty queue (reachable, so `escape` and
`done` are false), `modal` runs exactly the queue head and keeps going. -/
theorem modalStep_cons_run (s : ModalState) (j : Job) (rest : List Job)
    (hq : s.queue = j :: rest) (he : s.escape = false) (hd : s.done = false) :
    (modalStep s BEvent.timer).ran = some j ∧
    (modalStep s BEvent.timer).state.queue = rest ∧
    (modalStep s BEvent.timer).result = ModalResult.runningModal := by
  refine ⟨?_, ?_, ?_⟩ <;> simp [modalStep, modalFinish, hq, he, hd]

/-- On a `'TIMER'` event with `escape` set and an empty queue, `modal` performs
cleanup and returns `'FINISHED'` without running a job. -/
theorem modalStep_escape_empty (s : ModalState) (hq : s.queue = [])
    (he : s.escape = true) :
    (modalStep s BEvent.timer).ran = none ∧
    (modalStep s BEvent.timer).result = ModalResult.finished ∧
    (modalStep s BEvent.timer).state.timerActive = false ∧
    (modalStep s BEvent.timer).state.statusText = none ∧
    (modalStep s BEvent.timer).state.postOpDone = true := by
  refine ⟨?_, ?_, ?_, ?_, ?_⟩ <;> simp [modalStep, modalFinish, hq, he]

/-- On the first `'TIMER'` event with an empty queue and `escape` still unset,
`modal` announces completion and keeps running. -/
theorem modalStep_drain_announce (s : ModalState) (hq : s.queue = [])
    (he : s.escape = false) :
    (modalStep s BEvent.timer).ran = none ∧
    (modalStep s BEvent.timer).result = ModalResult.runningModal ∧
    (modalStep s BEvent.timer).state.progress = 100 ∧
    (modalStep s BEvent.timer).state.statusText = some "Finished!" ∧
    (modalStep s BEvent.timer).state.escape = true ∧
    (modalStep s BEvent.timer).state.queue = [] := by
  refine ⟨?_, ?_, ?_, ?_, ?_, ?_⟩ <;> simp [modalStep, modalFinish, hq, he]

/-- C2: in a modal run a job function is invoked only while handling a
`'TIMER'` event; the invocation dequeues exactly the queue head (so at most
one job per call), and the call returns `'RUNNING_MODAL'`, handing control
back to the host event loop between any two consecutive jobs.  The hypothesis
is the invariant of all states reachable from `invoke`
(`modalInv_init`, `modalInv_step`). -/
theorem modal_runs_job_only_on_timer (s : ModalState) (e : BEvent) (j : Job)
    (hInv : ModalInv s) (hj : (modalStep s e).ran = some j) :
    e = BEvent.timer ∧ s.queue.head? = some j ∧
    (modalStep s e).state.queue = s.queue.tail ∧
    (modalStep s e).result = ModalResult.runningModal := by
  cases e with
  | esc => cases hj
  | other => cases hj
  | timer =>
      cases hq : s.queue with
      | nil =>
          have hran : (modalStep s BEvent.timer).ran = none := by
            simp only [modalStep, hq, modalFinish]
            split
            · rfl
            · split <;> rfl
          rw [hran] at hj
          cases hj
      | cons j0 rest =>
          rcases modalStep_nonempty_flags s hInv j0 rest hq with ⟨he, hd⟩
          rcases modalStep_cons_run s j0 rest hq he hd with ⟨hran, hqueue, hres⟩
          have hjj : j = j0 := by
            rw [hran] at hj
            injection hj with h
            exact h.symm
          subst hjj
          exact ⟨rfl, rfl, by simp [hqueue], hres⟩

/-- Witness for C2 at a one-job queue. -/
theorem modal_runs_job_only_on_timer_witness :
    (modalStep (initModalState [⟨"export_mesh", "Exporting mesh", "id1", "file_path"⟩])
        BEvent.timer).result = ModalResult.runningModal :=
  (modal_runs_job_only_on_timer
    (initModalState [⟨"export_mesh", "Exporting mesh", "id1", "file_path"⟩])
    BEvent.timer ⟨"export_mesh", "Exporting mesh", "id1", "file_path"⟩
    (modalInv_init _) (by decide)).2.2.2

theorem modalStep_finished_empty (s : ModalState) (e : BEvent) (hInv : ModalInv s)
    (h : (modalStep s e).result = ModalResult.finished) :
    s.queue = [] ∧ (modalStep s e).ran = none := by
  cases e with
  | esc => cases h
  | other => cases h
  | timer =>
      cases hq : s.queue with
      | nil =>
          refine ⟨rfl, ?_⟩
          simp only [modalStep, hq, modalFinish]
          split
          · rfl
          · split <;> rfl
      | cons j rest =>
          rcases modalStep_nonempty_flags s hInv j rest hq with ⟨he, hd⟩
          rw [(modalStep_cons_run s j rest hq he hd).2.2] at h
          cases h

theorem modalRunFin_complete (evs : List BEvent) :
    ∀ s : ModalState, ModalInv s → (∀ e ∈ evs, e ≠ BEvent.esc) →
      (modalRunFin s evs).2 = true → (modalRunFin s evs).1 = s.queue := by
  induction evs with
  | nil =>
      intro s _ _ hfin
      cases hfin
  | cons e es ih =>
      intro s hInv hesc hfin
      have hne : e ≠ BEvent.esc := hesc e (List.mem_cons_self e es)
      unfold modalRunFin at hfin ⊢
      cases hres : (modalStep s e).result with
      | finished =>
          rcases modalStep_finished_empty s e hInv hres with ⟨hq, hran⟩
          simp only [hres, hran, Option.toList_none]
          exact hq.symm
      | runningModal =>
          simp only [hres] at hfin ⊢
          have ht := ih (modalStep s e).state (modalInv_step s e hInv)
            (fun e2 h2 => hesc e2 (List.mem_cons_of_mem e h2)) hfin
          rw [ht]
          exact modalStep_queue_keep s e hne

/-- C6: the progress modal terminates when the queue drains.  On the first
`'TIMER'` event at which the queue is empty (no prior `'ESC'`, so `escape` is
still false) the handler runs no job, sets progress to 100 and the status
text to `'Finished!'`, sets `escape`, and still returns `'RUNNING_MODAL'`; on
the following `'TIMER'` event it removes its timer, runs `post_operation` and
returns `'FINISHED'`.  `'FINISHED'` is never returned while undequeued jobs
remain in the queue, and in an `'ESC'`-free run that reaches `'FINISHED'`
every enqueued job was executed. -/
theorem modal_finishes_when_queue_drains (s : ModalState) (hInv : ModalInv s) :
    (s.escape = false → s.queue = [] →
      ((modalStep s BEvent.timer).ran = none ∧
       (modalStep s BEvent.timer).result = ModalResult.runningModal ∧
       (modalStep s BEvent.timer).state.progress = 100 ∧
       (modalStep s BEvent.timer).state.statusText = some "Finished!" ∧
       (modalStep s BEvent.timer).state.escape = true ∧
       (modalStep (modalStep s BEvent.timer).state BEvent.timer).result =
         ModalResult.finished ∧
       (modalStep (modalStep s BEvent.timer).state BEvent.timer).state.timerActive
         = false ∧
       (modalStep (modalStep s BEvent.timer).state BEvent.timer).state.postOpDone
         = true)) ∧
    (∀ e, (modalStep s e).result = ModalResult.finished → s.queue = []) ∧
    (∀ evs, (∀ e ∈ evs, e ≠ BEvent.esc) → (modalRunFin s evs).2 = true →
      (modalRunFin s evs).1 = s.queue) := by
  refine ⟨?_, ?_, ?_⟩
  · intro he hq
    rcases modalStep_drain_announce s hq he with ⟨h1, h2, h3, h4, h5, h6⟩
    rcases modalStep_escape_empty (modalStep s BEvent.timer).state h6 h5 with
      ⟨_, g2, g3, _, g5⟩
    exact ⟨h1, h2, h3, h4, h5, g2, g3, g5⟩
  · intro e h
    exact (modalStep_finished_empty s e hInv h).1
  · intro evs h1 h2
    exact modalRunFin_complete evs s hInv h1 h2

/-- Witness for C6 at a concrete drained state. -/
theorem modal_finishes_when_queue_drains_witness :
    (modalStep (initModalState []) BEvent.timer).state.progress = 100 ∧
    (modalStep (modalStep (initModalState []) BEvent.timer).state
      BEvent.timer).result = ModalResult.finished :=
  ⟨((modal_finishes_when_queue_drains (initModalState []) (modalInv_init [])).1
      rfl rfl).2.2.1,
   ((modal_finishes_when_queue_drains (initModalState []) (modalInv_init [])).1
      rfl rfl).2.2.2.2.2.1⟩

/-- C7: after the modal handler processes an `'ESC'` event the queue is
cleared, no job runs during that call, and no queued job is ever executed
afterwards; on the next `'TIMER'` event the handler performs cleanup (removes
its timer, clears the status text, runs `post_operation`) and returns
`'FINISHED'` without dequeuing any job. -/
theorem modal_esc_aborts (s : ModalState) (evs : List BEvent) :
    (modalStep s BEvent.esc).ran = none ∧
    (modalStep s BEvent.esc).state.queue = [] ∧
    (modalStep s BEvent.esc).state.escape = true ∧
    modalTrace (modalStep s BEvent.esc).state evs = [] ∧
    (modalStep (modalStep s BEvent.esc).state BEvent.timer).ran = none ∧
    (modalStep (modalStep s BEvent.esc).state BEvent.timer).result =
      ModalResult.finished ∧
    (modalStep (modalStep s BEvent.esc).state BEvent.timer).state.timerActive
      = false ∧
    (modalStep (modalStep s BEvent.esc).state BEvent.timer).state.statusText
      = none ∧
    (modalStep (modalStep s BEvent.esc).state BEvent.timer).state.postOpDone
      = true := by
  refine ⟨rfl, rfl, rfl, modalTrace_of_empty evs _ rfl, ?_, ?_, ?_, ?_, ?_⟩ <;>
    simp [modalStep, modalFinish]

/-! ## Per-asset export/import effects (`core/export.py`, `core/ingest.py`) -/

/-- One `asset_data` entry, restricted to the fields that `export_file` and
`import_asset` read. -/
structure AssetData where
  skip : Bool
  file_path : String
  asset_path : String
  images_file_paths : List String
  fcurve_file_path : Option String
deriving Repr, DecidableEq

/-- The externally visible steps of `export_file` and `import_asset`. -/
inductive Effect where
  | assignMetadata
  | writeFile (path : String)
  | deleteMetadata
  | preImportExtensions
  | remoteImportImages (paths : List String)
  | remoteImportAsset (path : String)
  | remoteImportFCurves (assetPath fcurvePath : String)
  | postImportExtensions
deriving Repr, DecidableEq

/-- `export_file` (`core/export.py`, lines 148-187) as its effect trace: it
returns immediately when the entry's `skip` is truthy; otherwise it assigns
the `blender_metadata` custom properties, writes the interchange file (FBX or
Alembic) and deletes the custom properties again.  Directory creation and
export-settings gathering, which touch no asset, are elided. -/
def export_file (d : AssetData) : List Effect :=
  if d.skip then []
  else [Effect.assignMetadata, Effect.writeFile d.file_path, Effect.deleteMetadata]

/-- `import_asset` (`core/ingest.py`, lines 27-69) as its effect trace: the
pre/post import extension tasks always run; remote calls happen only when
`skip` is falsy - `import_images` first (when the entry has image paths), then
`import_asset`, then `import_animation_fcurves` (when the entry has an fcurve
file).  The loop that removes already-imported image paths from other entries
mutates only those other entries and is elided. -/
def import_asset (d : AssetData) : List Effect :=
  [Effect.preImportExtensions] ++
  (if d.skip then []
   else
     (if d.images_file_paths.isEmpty then []
      else [Effect.remoteImportImages d.images_file_paths]) ++
     [Effect.remoteImportAsset d.file_path] ++
     (match d.fcurve_file_path with
      | some p => [Effect.remoteImportFCurves d.asset_path p]
      | none => [])) ++
  [Effect.postImportExtensions]

/-- The effects that are remote procedure calls into the Unreal editor. -/
def Effect.isRemoteCall : Effect → Bool
  | Effect.remoteImportImages _ => true
  | Effect.remoteImportAsset _ => true
  | Effect.remoteImportFCurves _ _ => true
  | _ => false

/-- C8: for an entry with `skip` set, `export_file` performs nothing (no file
write, no metadata assignment) and `import_asset` makes no remote call; for an
entry with `skip` unset, `export_file` assigns metadata and writes the file,
and `import_asset` makes the `import_asset` remote call, the `import_images`
call exactly when the entry has image paths, and the
`import_animation_fcurves` call when it has an fcurve file. -/
theorem skip_gates_export_and_import (d : AssetData) :
    (d.skip = true →
      export_file d = [] ∧ (import_asset d).filter Effect.isRemoteCall = []) ∧
    (d.skip = false →
      Effect.assignMetadata ∈ export_file d ∧
      Effect.writeFile d.file_path ∈ export_file d ∧
      Effect.remoteImportAsset d.file_path ∈ import_asset d ∧
      ((Effect.remoteImportImages d.images_file_paths ∈ import_asset d) ↔
        d.images_file_paths ≠ []) ∧
      (∀ p, d.fcurve_file_path = some p →
        Effect.remoteImportFCurves d.asset_path p ∈ import_asset d)) := by
  constructor
  · intro h
    refine ⟨by simp [export_file, h], ?_⟩
    simp [import_asset, h, Effect.isRemoteCall]
  · intro h
    refine ⟨by simp [export_file, h], by simp [export_file, h], ?_, ?_, ?_⟩
    · cases hf : d.fcurve_file_path <;>
        by_cases hi : d.images_file_paths.isEmpty <;>
        simp [import_asset, h, hf, hi]
    · cases hf : d.fcurve_file_path <;>
        by_cases hi : d.images_file_paths.isEmpty <;>
        simp [import_asset, h, hf, hi, List.isEmpty_iff.mp,
          List.isEmpty_iff]
      all_goals
        simp [List.isEmpty_eq_false] at hi
        simp [hi]
    · intro p hp
      by_cases hi : d.images_file_paths.isEmpty <;>
        simp [import_asset, h, hp, hi]

/-- Witness for C8: a skipped entry and an unskipped entry, concretely. -/
theorem skip_gates_export_and_import_witness :
    export_file ⟨true, "C:/tmp/f.fbx", "/Game/f", [], none⟩ = [] ∧
    Effect.remoteImportAsset "C:/tmp/f.fbx" ∈
      import_asset ⟨false, "C:/tmp/f.fbx", "/Game/f", [], none⟩ :=
  ⟨((skip_gates_export_and_import ⟨true, "C:/tmp/f.fbx", "/Game/f", [], none⟩).1
      rfl).1,
   ((skip_gates_export_and_import ⟨false, "C:/tmp/f.fbx", "/Game/f", [], none⟩).2
      rfl).2.2.1⟩

/-! ## Ordering of the jobs enqueued by `send2ue` (`core/export.py`, lines 903-921)

`utilities.track_progress` is not under `src/`; per the spec ("the job queue is
a simple FIFO processed on a UI timer tick") and the 6-tuples unpacked in
`Send2Ue.modal`, calling a decorated export/import function appends one job to
the execution queue, so the enqueue order below is the call order of the
decorated functions. -/

/-- The decorated functions that enqueue jobs during `send2ue`. -/
inductive JobKind where
  | exportMesh
  | exportAnimation
  | exportHair
  | importAsset
  | importLevelSequence
deriving Repr, DecidableEq

/-- A queued job of the send-to-unreal operation, tagged with its asset id. -/
structure QJob where
  kind : JobKind
  asset_id : String
deriving Repr, DecidableEq

/-- Jobs that write an asset's interchange file. -/
def JobKind.isExport : JobKind → Bool
  | JobKind.exportMesh => true
  | JobKind.exportAnimation => true
  | JobKind.exportHair => true
  | _ => false

/-- Jobs that issue remote import calls. -/
def JobKind.isImport : JobKind → Bool
  | JobKind.importAsset => true
  | JobKind.importLevelSequence => true
  | _ => false

/-- Modelled from the spec: the jobs enqueued by `create_asset_data`
(`core/export.py`, lines 866-900) via the `track_progress`-decorated export
functions: `create_mesh_data` calls `export_mesh` per mesh, then
`create_animation_data` calls `export_animation` per action, then
`create_groom_data` calls `export_hair` per hair object
(`create_texture_data` and `create_level_sequence_data` save images and read
frames directly without enqueuing jobs). -/
def create_asset_data_jobs (meshIds animIds groomIds : List String) : List QJob :=
  meshIds.map (fun i => ⟨JobKind.exportMesh, i⟩) ++
  animIds.map (fun i => ⟨JobKind.exportAnimation, i⟩) ++
  groomIds.map (fun i => ⟨JobKind.exportHair, i⟩)

/-- Modelled from the spec: the jobs enqueued by `ingest.assets`
(`core/ingest.py`, lines 156-193): one `import_asset` per recorded
non-level-sequence entry (the lod and socket jobs, which are also
import-side, are elided) and `import_level_sequence` last. -/
def ingest_assets_jobs (assetIds : List String) (exportLS : Bool) : List QJob :=
  assetIds.map (fun i => ⟨JobKind.importAsset, i⟩) ++
  (if exportLS then [⟨JobKind.importLevelSequence, "LevelSequenceID"⟩] else [])

/-- `send2ue` (`core/export.py`, lines 903-921): after validation it runs
`create_asset_data(properties)` to completion and only then
`ingest.assets(properties)`, so the FIFO queue is all export jobs followed by
all import jobs. -/
def send2ue_queue (meshIds animIds groomIds : List String) (exportLS : Bool) :
    List QJob :=
  create_asset_data_jobs meshIds animIds groomIds ++
  ingest_assets_jobs (meshIds ++ animIds ++ groomIds) exportLS

theorem mem_create_asset_data_jobs_export (q : QJob)
    (meshIds animIds groomIds : List String)
    (h : q ∈ create_asset_data_jobs meshIds animIds groomIds) :
    q.kind.isExport = true := by
  simp only [create_asset_data_jobs, List.mem_append, List.mem_map] at h
  rcases h with (⟨x, _, hx⟩ | ⟨x, _, hx⟩) | ⟨x, _, hx⟩ <;> rw [← hx] <;> rfl

theorem mem_ingest_assets_jobs_import (q : QJob) (assetIds : List String)
    (exportLS : Bool) (h : q ∈ ingest_assets_jobs assetIds exportLS) :
    q.kind.isImport = true := by
  simp only [ingest_assets_jobs, List.mem_append, List.mem_map] at h
  rcases h with ⟨x, _, hx⟩ | h
  · rw [← hx]
    rfl
  · cases exportLS with
    | true =>
        simp only [if_true, List.mem_singleton] at h
        rw [h]
        rfl
    | false => simp at h

theorem isImport_not_isExport (k : JobKind) (h : k.isImport = true) :
    k.isExport = false := by
  cases k <;> first | rfl | cases h

theorem isExport_not_isImport (k : JobKind) (h : k.isExport = true) :
    k.isImport = false := by
  cases k <;> first | rfl | cases h

theorem mem_of_getElem_opt {α : Type} {l : List α} {n : Nat} {a : α}
    (h : l[n]? = some a) : a ∈ l := by
  rcases List.getElem?_eq_some.mp h with ⟨hlt, hget⟩
  exact hget ▸ List.getElem_mem hlt

/-- C3: in the queue built by `send2ue`, every job that writes an asset's
interchange file sits at a strictly smaller index than every job that issues a
remote import call - `create_asset_data` runs to completion before
`ingest.assets` enqueues any import, and the queue is FIFO
(`send2ue_queue_fifo`), so each asset's file write is executed before any
remote import, in particular before its own. -/
theorem export_precedes_remote_import
    (meshIds animIds groomIds : List String) (exportLS : Bool)
    (i j : Nat) (ej ij : QJob)
    (hi : (send2ue_queue meshIds animIds groomIds exportLS)[i]? = some ej)
    (hj : (send2ue_queue meshIds animIds groomIds exportLS)[j]? = some ij)
    (hei : ej.kind.isExport = true) (hij : ij.kind.isImport = true) :
    i < j := by
  have hiL : i < (create_asset_data_jobs meshIds animIds groomIds).length := by
    by_contra hge
    push_neg at hge
    rw [send2ue_queue, List.getElem?_append_right hge] at hi
    have hmem : ej ∈ ingest_assets_jobs (meshIds ++ animIds ++ groomIds) exportLS :=
      mem_of_getElem_opt hi
    have himp := mem_ingest_assets_jobs_import ej _ exportLS hmem
    rw [isImport_not_isExport ej.kind himp] at hei
    cases hei
  have hjL : (create_asset_data_jobs meshIds animIds groomIds).length ≤ j := by
    by_contra hlt
    push_neg at hlt
    rw [send2ue_queue, List.getElem?_append_left hlt] at hj
    have hmem : ij ∈ create_asset_data_jobs meshIds animIds groomIds :=
      mem_of_getElem_opt hj
    have hexp := mem_create_asset_data_jobs_export ij _ _ _ hmem
    rw [isExport_not_isImport ij.kind hexp] at hij
    cases hij
  exact lt_of_lt_of_le hiL hjL

/-- Witness for C3: one mesh asset, export job at index 0, import job at
index 1. -/
theorem export_precedes_remote_import_witness :
    (send2ue_queue ["cube"] [] [] false)[0]? = some ⟨JobKind.exportMesh, "cube"⟩ ∧
    (send2ue_queue ["cube"] [] [] false)[1]? = some ⟨JobKind.importAsset, "cube"⟩ ∧
    (0 : Nat) < 1 :=
  ⟨rfl, rfl,
   export_precedes_remote_import ["cube"] [] [] false 0 1
     ⟨JobKind.exportMesh, "cube"⟩ ⟨JobKind.importAsset, "cube"⟩ rfl rfl rfl rfl⟩

/-! ## `create_asset_data`'s dictionary update (`core/export.py`, lines 866-900) -/

/-- A Python `dict` with string keys, as an association list; `List.lookup`
finds the most recent write first, so an entry consed or appended on the left
shadows older entries with the same key. -/
abbrev PyDict (α : Type) : Type := List (String × α)

theorem lookup_append {α : Type} (k : String) (xs ys : PyDict α) :
    List.lookup k (xs ++ ys) =
      (List.lookup k xs).orElse (fun _ => List.lookup k ys) := by
  induction xs with
  | nil => simp [List.lookup]
  | cons p rest ih =>
      cases p with
      | mk k2 v =>
          cases hbk : (k == k2) with
          | true => simp [List.lookup, hbk]
          | false => simpa [List.lookup, hbk] using ih

theorem orElse_isSome {α : Type} (a : Option α) (f : Unit → Option α) :
    (a.orElse f).isSome = (a.isSome || (f ()).isSome) := by
  cases a <;> simp [Option.orElse]

/-- `mesh_asset_data[asset_id] = mesh_asset_data[asset_id] | {...}` for one
texture record (`core/export.py`, lines 612-617): `op` is the dict-merge `|`
on the entry value; a missing mesh entry is Python's `KeyError`. -/
def mergeTextureRecord {α : Type} (op : α → α → α) (m : PyDict α) (k : String)
    (e : α) : Except String (PyDict α) :=
  match List.lookup k m with
  | some v => Except.ok ((k, op v e) :: m)
  | none => Except.error "KeyError"

/-- The `create_texture_data` merge loop over all collected texture records,
updating the mesh asset data in place. -/
def applyTextureMerge {α : Type} (op : α → α → α) (m : PyDict α) :
    List (String × α) → Except String (PyDict α)
  | [] => Except.ok m
  | (k, e) :: rest =>
      match mergeTextureRecord op m k e with
      | Except.ok m2 => applyTextureMerge op m2 rest
      | Except.error err => Except.error err

/-- `create_asset_data` (`core/export.py`, lines 866-900) at the dictionary
level.  The five collected dictionaries are inputs (their construction reads
the Blender scene); `create_texture_data` merges the texture records into the
mesh data in place, and then
`asset_data.update({**mesh_data, **animation_data, **hair_data,
**level_sequence_data})` merges the collections - later ones overriding
earlier ones on key collision - into the existing `asset_data` without
removing any key. -/
def create_asset_data {α : Type} (op : α → α → α)
    (old meshData animData hairData lsData : PyDict α)
    (texData : List (String × α)) : Except String (PyDict α) :=
  match applyTextureMerge op meshData texData with
  | Except.ok meshData2 =>
      Except.ok (lsData ++ hairData ++ animData ++ meshData2 ++ old)
  | Except.error err => Except.error err

theorem applyTextureMerge_isSome {α : Type} (op : α → α → α)
    (tex : List (String × α)) :
    ∀ m m2 : PyDict α, applyTextureMerge op m tex = Except.ok m2 →
      ∀ k, (List.lookup k m2).isSome = (List.lookup k m).isSome := by
  induction tex with
  | nil =>
      intro m m2 h k
      injection h with h2
      rw [h2]
  | cons p rest ih =>
      intro m m2 h k
      cases p with
      | mk kt e =>
          unfold applyTextureMerge mergeTextureRecord at h
          cases hl : List.lookup kt m with
          | none =>
              rw [hl] at h
              cases h
          | some v =>
              rw [hl] at h
              have hstep := ih ((kt, op v e) :: m) m2 h k
              rw [hstep]
              cases hbk : (k == kt) with
              | true =>
                  have hk : k = kt := by
                    exact beq_iff_eq.mp hbk
                  rw [hk, hl]
                  simp [List.lookup]
              | false => simp [List.lookup, hbk]

/-- C10: when `create_asset_data` succeeds, the updated `asset_data` resolves
every key through the level-sequence entry first, then hair, animation, and
texture-merged mesh data, then the pre-existing entries - i.e. it holds the
union of the five collections (texture data having been merged into the
corresponding mesh entries, adding no key) over the old data, later
collections overriding earlier ones, and no pre-existing key is removed. -/
theorem create_asset_data_update {α : Type} (op : α → α → α)
    (old meshData animData hairData lsData : PyDict α)
    (texData : List (String × α)) (meshData2 result : PyDict α)
    (htex : applyTextureMerge op meshData texData = Except.ok meshData2)
    (hres : create_asset_data op old meshData animData hairData lsData texData =
      Except.ok result) :
    ∀ k : String,
      (List.lookup k result =
        (List.lookup k lsData).orElse (fun _ =>
          (List.lookup k hairData).orElse (fun _ =>
            (List.lookup k animData).orElse (fun _ =>
              (List.lookup k meshData2).orElse (fun _ =>
                List.lookup k old))))) ∧
      (List.lookup k meshData2).isSome = (List.lookup k meshData).isSome ∧
      ((List.lookup k old).isSome = true →
        (List.lookup k result).isSome = true) := by
  intro k
  unfold create_asset_data at hres
  rw [htex] at hres
  injection hres with hr
  subst hr
  have hmaster :
      List.lookup k (lsData ++ hairData ++ animData ++ meshData2 ++ old) =
        (List.lookup k lsData).orElse (fun _ =>
          (List.lookup k hairData).orElse (fun _ =>
            (List.lookup k animData).orElse (fun _ =>
              (List.lookup k meshData2).orElse (fun _ =>
                List.lookup k old)))) := by
    rw [lookup_append, lookup_append, lookup_append, lookup_append]
    cases List.lookup k lsData <;>
      cases List.lookup k hairData <;>
        cases List.lookup k animData <;>
          cases List.lookup k meshData2 <;>
            simp [Option.orElse]
  refine ⟨hmaster, applyTextureMerge_isSome op texData meshData meshData2 htex k, ?_⟩
  intro hold
  rw [hmaster, orElse_isSome, orElse_isSome, orElse_isSome, orElse_isSome, hold]
  simp

/-- Witness for C10: a pre-existing key, a mesh entry with a texture record
merged in, and a level-sequence entry, concretely. -/
theorem create_asset_data_update_witness :
    (List.lookup "z"
      ([("l", 5), ("m", 7), ("m", 2), ("z", 1)] : PyDict Nat)).isSome = true :=
  ((create_asset_data_update (fun _ y => y) [("z", 1)] [("m", 2)] [] [] [("l", 5)]
      [("m", 7)] [("m", 7), ("m", 2)] [("l", 5), ("m", 7), ("m", 2), ("z", 1)]
      (by rfl) (by rfl)) "z").2.2 rfl

/-! ## Frame effect of the send operation on the scene (C4) -/

/-- The scene state C4 is about: the material datablock names, a mesh
object's custom properties (where `blender_metadata` is written), and the
object/scene state snapshotted by `get_current_context` (selection, mode,
active actions, frame), abstracted into one value. -/
structure Scene where
  materialNames : List (List Char)
  objCustomProps : List (String × String)
  objContext : Nat
deriving Repr, DecidableEq

/-- Modelled from the spec: `utilities.get_current_context` is not under
`src/`.  `Send2Ue.pre_operation` documents it as getting "the current state of
the scene and its objects"; it snapshots object and scene state, not material
datablock names. -/
def get_current_context (s : Scene) : Nat := s.objContext

/-- Modelled from the spec: `utilities.set_context` is not under `src/`.
`Send2Ue.post_operation` documents it as restoring "the previous state of the
scene and its objects" from the saved snapshot. -/
def set_context (s : Scene) (ctx : Nat) : Scene := { s with objContext := ctx }

/-- Dict-style custom-property assignment `obj[key] = value`. -/
def setProp (m : List (String × String)) (k v : String) : List (String × String) :=
  (k, v) :: m

/-- `del obj[key]`. -/
def delProp (m : List (String × String)) (k : String) : List (String × String) :=
  m.filter (fun kv => !(kv.1 == k))

/-- `assign_custom_metadata` (`core/metadata/__init__.py`, lines 50-102) at the
scene level: unless `properties.export_level_sequence` is set,
`fix_material_name` renames every slot material in place - by
`fixLoop_zero_iterations` its while-loop runs zero iterations, so the new name
is one `unreal_material_name` application - and the serialized metadata is
stored on each mesh object under `blender_metadata`. -/
def assign_custom_metadata (exportLS : Bool) (s : Scene) : Scene :=
  { s with
    materialNames :=
      if exportLS then s.materialNames else s.materialNames.map unreal_material_name,
    objCustomProps := setProp s.objCustomProps "blender_metadata" "serialized" }

/-- `delete_custom_metadata` (`core/metadata/__init__.py`, lines 110-112):
`del obj[blender_metadata]` on each mesh object. -/
def delete_custom_metadata (s : Scene) : Scene :=
  { s with objCustomProps := delProp s.objCustomProps "blender_metadata" }

/-- `export_file`'s effect on the scene (`core/export.py`, lines 179-187):
assign the metadata, write the interchange file (no scene effect), delete the
metadata property again. -/
def export_file_scene (exportLS : Bool) (s : Scene) : Scene :=
  delete_custom_metadata (assign_custom_metadata exportLS s)

/-- The send-to-unreal operation's effect on the scene
(`send2ue/operators.py`, lines 117-135): `pre_operation` saves the context,
the queued export jobs run `export_file`, and `post_operation` restores the
saved context. -/
def send_operation (exportLS : Bool) (s : Scene) : Scene :=
  set_context (export_file_scene exportLS s) (get_current_context s)

/-- C4 counterexample: a material named `Mat.001` is permanently renamed (to
`Mat_001`) by the operation with `export_level_sequence` off, so the
material's state, in particular its name, is not the same as before. -/
theorem send_operation_changes_material_names :
    (send_operation false
      ⟨[['M', 'a', 't', '.', '0', '0', '1']], [], 0⟩).materialNames ≠
    [['M', 'a', 't', '.', '0', '0', '1']] := by decide

theorem lookup_delProp_self (m : List (String × String)) (k : String) :
    List.lookup k (delProp m k) = none := by
  induction m with
  | nil => rfl
  | cons p rest ih =>
      cases p with
      | mk k2 v =>
          cases hbk : (k2 == k) with
          | true =>
              simp only [delProp, List.filter, hbk, Bool.not_true]
              exact ih
          | false =>
              have hbk2 : (k == k2) = false := by
                cases hkk : (k == k2) with
                | false => rfl
                | true =>
                    rw [beq_iff_eq.mp hkk, beq_self_eq_true] at hbk
                    cases hbk
              simp only [delProp, List.filter, hbk, Bool.not_false]
              simp only [List.lookup, hbk2]
              exact ih

theorem lookup_delProp_ne (m : List (String × String)) (k k2 : String)
    (hne : k2 ≠ k) : List.lookup k2 (delProp m k) = List.lookup k2 m := by
  induction m with
  | nil => rfl
  | cons p rest ih =>
      cases p with
      | mk k3 v =>
          cases hbk : (k3 == k) with
          | true =>
              have hk2 : (k2 == k3) = false := by
                cases hkk : (k2 == k3) with
                | false => rfl
                | true =>
                    rw [beq_iff_eq.mp hkk, beq_iff_eq.mp hbk] at hne
                    exact absurd rfl hne
              simp only [delProp, List.filter, hbk, Bool.not_true]
              have ih2 : List.lookup k2 (List.filter (fun kv => !(kv.1 == k)) rest) =
                  List.lookup k2 rest := ih
              rw [ih2]
              simp [List.lookup, hk2]
          | false =>
              simp only [delProp, List.filter, hbk, Bool.not_false]
              cases hkk : (k2 == k3) with
              | true => simp [List.lookup, hkk]
              | false => simpa [List.lookup, hkk] using ih

/-- C4 amended: after the send operation the context-restorable object/scene
state is back to its original value and the temporary `blender_metadata`
custom property is gone (its key is absent, and every other custom property
resolves as before), but material names are not restored: each material's
name ends as `unreal_material_name` of its original (so it is unchanged
exactly when it contained no invalid filename character), except that the
`export_level_sequence` path skips the renaming entirely. -/
theorem send_operation_frame_effect (exportLS : Bool) (s : Scene) :
    (send_operation exportLS s).objContext = s.objContext ∧
    (send_operation exportLS s).materialNames =
      (if exportLS then s.materialNames
       else s.materialNames.map unreal_material_name) ∧
    List.lookup "blender_metadata" (send_operation exportLS s).objCustomProps =
      none ∧
    (∀ k : String, k ≠ "blender_metadata" →
      List.lookup k (send_operation exportLS s).objCustomProps =
        List.lookup k s.objCustomProps) := by
  refine ⟨rfl, rfl, ?_, ?_⟩
  · exact lookup_delProp_self _ "blender_metadata"
  · intro k hk
    have h1 : List.lookup k (send_operation exportLS s).objCustomProps =
        List.lookup k
          (setProp s.objCustomProps "blender_metadata" "serialized") :=
      lookup_delProp_ne _ "blender_metadata" k hk
    rw [h1]
    have hbk : (k == "blender_metadata") = false := by
      cases hkk : (k == "blender_metadata") with
      | false => rfl
      | true => exact absurd (beq_iff_eq.mp hkk) hk
    simp [setProp, List.lookup, hbk]

/-- Witness for C4's amended claim: a concrete scene with one unrelated
custom property, with `export_level_sequence` off. -/
theorem send_operation_frame_effect_witness :
    List.lookup "note"
        (send_operation false
          ⟨[['M', 'a', 't', '.', '0', '0', '1']], [("note", "keep")], 7⟩).objCustomProps =
      List.lookup "note"
        ([("note", "keep")] : List (String × String)) :=
  (send_operation_frame_effect false
    ⟨[['M', 'a', 't', '.', '0', '0', '1']], [("note", "keep")], 7⟩).2.2.2
    "note" (by decide)

end BlenderTools
